import Mathlib

/-!
Shallow embedding of the spinel-arena agentic tool-use core:
the POST /api/chat streaming loop (src/app/api/chat/route.ts),
the sandbox pool and executor (src/lib/sandbox.ts), and the outer
request handler, together with theorems settling the specification
claims about them.

JavaScript truthiness is embedded explicitly: an `if (s)` test on a
string is `s ≠ ""`, and on a `string | null` value it is
`o.getD "" ≠ ""` (both `null` and the empty string are falsy).
-/

namespace SpinelArena

/-- Result of `executeCode` (src/lib/sandbox.ts): captured text,
base64 images, and an optional error description (`string | null`). -/
structure ExecResult where
  text : String
  images : List String
  error : Option String
deriving Repr, DecidableEq

/-- Wire events streamed to the frontend: each frame is a JSON object
with a `type` field among text/code/output/error/image/done. -/
inductive Ev where
  | text (s : String)
  | code (s : String)
  | output (s : String)
  | error (s : String)
  | image (s : String)
  | done
deriving Repr, DecidableEq

/-- A content block of a model response: plain text or a tool
invocation (`tool_use`) with its id and submitted code. -/
inductive Block where
  | text (s : String)
  | toolUse (id : String) (code : String)
deriving Repr, DecidableEq

/-- A conversation message as the loop manipulates it: an opaque
request message, an assistant message holding content blocks, or a
user message holding a single `tool_result` unit. -/
inductive Msg where
  | user (s : String)
  | assistant (content : List Block)
  | toolResult (id : String) (content : String)
deriving Repr, DecidableEq

/-- JavaScript `String.prototype.trim()` on the character list:
leading and trailing whitespace removed. -/
def trimChars (l : List Char) : List Char :=
  ((l.dropWhile Char.isWhitespace).reverse.dropWhile Char.isWhitespace).reverse

/-- JavaScript `String.prototype.trim()`. -/
def jsTrim (s : String) : String := String.mk (trimChars s.data)

/-- JavaScript `Array.prototype.join(sep)`: the empty list joins to
the empty string, otherwise the parts are interleaved with `sep`. -/
def joinSep (sep : String) : List String → String
  | [] => ""
  | [a] => a
  | a :: b :: rest => a ++ sep ++ joinSep sep (b :: rest)

/-- Events streamed for one execution result
(route.ts lines 157-181): an `output` event when `result.text` is
truthy, an `error` event when `result.error` is truthy, and one
`image` event per element of `result.images`, in order. -/
def resultEvents (r : ExecResult) : List Ev :=
  (if r.text = "" then [] else [Ev.output r.text]) ++
  (if r.error.getD "" = "" then [] else [Ev.error (r.error.getD "")]) ++
  r.images.map Ev.image

/-- The three candidate blocks of the tool-result summary
(route.ts lines 184-190), each empty when its field is falsy. -/
def summaryParts (r : ExecResult) : List String :=
  [ if r.text = "" then "" else "Output:\n" ++ r.text,
    if r.error.getD "" = "" then "" else "Error:\n" ++ r.error.getD "",
    if r.images.length = 0 then ""
      else "[" ++ toString r.images.length ++ " plot(s) generated and displayed]" ]

/-- The function `toolResultContent` (route.ts lines 184-192): the non-empty
summary blocks joined by blank lines (`filter(Boolean).join("\n\n")`). -/
def toolResultContent (r : ExecResult) : String :=
  joinSep "\n\n" ((summaryParts r).filter (fun s => s ≠ ""))

/-- The content stored in the tool-result unit (route.ts line 204):
`toolResultContent || "Code executed successfully."`. -/
def summaryOrDefault (r : ExecResult) : String :=
  if toolResultContent r = "" then "Code executed successfully."
  else toolResultContent r

/-- State threaded through the per-block processing of one model
response: the conversation so far, events emitted so far, the
`hasToolUse` flag, and a global tool-invocation counter used to
index the sandbox oracle. -/
structure PB where
  msgs : List Msg
  events : List Ev
  hasTool : Bool
  execN : Nat
deriving Repr, DecidableEq

/-- Per-block processing of one model response (route.ts lines
131-210), with the JavaScript aliasing of `assistantContent` made
explicit: every block of the response is pushed into one shared
array, so by the time of the next model call each assistant message
appended during this response holds the response's `full` block
list.  A `tool_use` block emits a `code` event and the result
events, and appends an assistant message plus a `tool_result` unit
keyed by the invocation id. -/
def processBlocks (exec : Nat → String → ExecResult) (full : List Block) :
    List Block → PB → PB
  | [], st => st
  | Block.text s :: rest, st =>
      processBlocks exec full rest
        { st with events := st.events ++ [Ev.text s] }
  | Block.toolUse id code :: rest, st =>
      let r := exec st.execN code
      processBlocks exec full rest
        { msgs := st.msgs ++
            [Msg.assistant full, Msg.toolResult id (summaryOrDefault r)],
          events := st.events ++ [Ev.code code] ++ resultEvents r,
          hasTool := true,
          execN := st.execN + 1 }

/-- Value semantics for the same per-block processing: the assistant
message appended at a `tool_use` block holds a snapshot of the
blocks pushed so far (`seen` plus the current block), i.e. the value
`assistantContent` had at the moment of the append.  Comparing this
with `processBlocks` makes the in-place mutation of already-appended
assistant messages observable. -/
def processBlocksSnap (exec : Nat → String → ExecResult) :
    List Block → List Block → PB → PB
  | [], _, st => st
  | Block.text s :: rest, seen, st =>
      processBlocksSnap exec rest (seen ++ [Block.text s])
        { st with events := st.events ++ [Ev.text s] }
  | Block.toolUse id code :: rest, seen, st =>
      let r := exec st.execN code
      processBlocksSnap exec rest (seen ++ [Block.toolUse id code])
        { msgs := st.msgs ++
            [Msg.assistant (seen ++ [Block.toolUse id code]),
             Msg.toolResult id (summaryOrDefault r)],
          events := st.events ++ [Ev.code code] ++ resultEvents r,
          hasTool := true,
          execN := st.execN + 1 }

/-- Outcome of the agentic while-loop: events emitted by the loop
body, number of model calls issued, and the message of the exception
that aborted the loop, when one was thrown. -/
structure LoopOut where
  events : List Ev
  calls : Nat
  fault : Option String
deriving Repr, DecidableEq

/-- The agentic loop of route.ts (lines 113-216): bounded by `fuel`
(`maxIterations`), each iteration issues one model call — modelled
as an oracle from the iteration index and the current conversation
to either a response block list or a thrown exception — processes
the response's blocks, and continues only when the response
contained a tool invocation. -/
def runLoop (model : Nat → List Msg → Except String (List Block))
    (exec : Nat → String → ExecResult) :
    Nat → Nat → Nat → List Msg → LoopOut
  | 0, _, _, _ => ⟨[], 0, none⟩
  | fuel + 1, iter, execN, msgs =>
      match model iter msgs with
      | Except.error e => ⟨[], 1, some e⟩
      | Except.ok blocks =>
          let p := processBlocks exec blocks blocks ⟨msgs, [], false, execN⟩
          if p.hasTool then
            let rest := runLoop model exec fuel (iter + 1) p.execN p.msgs
            ⟨p.events ++ rest.events, 1 + rest.calls, rest.fault⟩
          else
            ⟨p.events, 1, none⟩

/-- The loop is entered with `maxIterations = 10` (route.ts line 115). -/
def maxIterations : Nat := 10

/-- The full event sequence pushed through the stream for one request
(route.ts lines 110-240): the loop's events followed by a single
`done` frame on normal exit, or by a single terminal `error` frame
when an exception aborted the loop; the stream is closed either way. -/
def streamEvents (model : Nat → List Msg → Except String (List Block))
    (exec : Nat → String → ExecResult) (msgs : List Msg) : List Ev :=
  match (runLoop model exec maxIterations 0 0 msgs).fault with
  | none => (runLoop model exec maxIterations 0 0 msgs).events ++ [Ev.done]
  | some e => (runLoop model exec maxIterations 0 0 msgs).events ++ [Ev.error e]

/-- The per-channel log arrays of an E2B `Execution`: all stdout
lines in one array, all stderr lines in another. -/
structure ExecLogs where
  stdout : List String
  stderr : List String
deriving Repr, DecidableEq

/-- One entry of `execution.results`; only the optional `png` payload
is consumed by `executeCode`. -/
structure CellResult where
  png : Option String
deriving Repr, DecidableEq

/-- The `execution.error` field: an error object whose `value` field carries the
exception value. -/
structure ExecFault where
  value : String
deriving Repr, DecidableEq

/-- The `Execution` value returned by `sandbox.runCode`. -/
structure Execution where
  logs : ExecLogs
  results : List CellResult
  error : Option ExecFault
deriving Repr, DecidableEq

/-- The function `executeCode` (src/lib/sandbox.ts lines 143-172).  The remote call
either returns an `Execution` or throws; a thrown fault (timeout,
harness failure) is caught and turned into an outcome with empty
text, no images, and the error message (`e.message || "Execution
failed"`, empty message falsy).  On success the captured text is
`stdout.join("\n") + stderr.join("\n")` trimmed, the images are the
truthy `png` payloads in order, and the error is
`execution.error ? execution.error.value : null`. -/
def executeCode (res : Except String Execution) : ExecResult :=
  match res with
  | Except.error msg =>
      { text := "", images := [],
        error := some (if msg = "" then "Execution failed" else msg) }
  | Except.ok execution =>
      { text := jsTrim (joinSep "\n" execution.logs.stdout ++
                 joinSep "\n" execution.logs.stderr),
        images := execution.results.filterMap (fun r =>
          match r.png with
          | none => none
          | some p => if p = "" then none else some p),
        error := execution.error.map (fun e => e.value) }

/-- One raw log line in the order the execution produced it, tagged
with its channel.  The E2B `logs` arrays are the two projections of
this emission-order sequence. -/
inductive Chan where
  | out
  | err
deriving Repr, DecidableEq

/-- The stdout projection of an emission-order log. -/
def stdoutOf (l : List (Chan × String)) : List String :=
  l.filterMap (fun p => if p.1 = Chan.out then some p.2 else none)

/-- The stderr projection of an emission-order log. -/
def stderrOf (l : List (Chan × String)) : List String :=
  l.filterMap (fun p => if p.1 = Chan.err then some p.2 else none)

/-- The `Execution` observed for an emission-order log `l`. -/
def mkExecution (l : List (Chan × String)) (results : List CellResult)
    (error : Option ExecFault) : Execution :=
  ⟨⟨stdoutOf l, stderrOf l⟩, results, error⟩

/-- Modelled from the spec: "captured text (merged standard
output/error in emission order)" — the log lines joined in the
interleaved order in which they were produced. -/
def specMergedText (l : List (Chan × String)) : String :=
  joinSep "\n" (l.map (fun p => p.2))

/-- Global state of the sandbox pool (src/lib/sandbox.ts): the
`activeSandboxes` map (association list, most recent binding first,
observationally `Map.set`/`Map.get`), a supply of fresh sandbox
identities, and a count of `Sandbox.create` calls issued. -/
structure PoolSt where
  pool : List (String × Nat)
  nextEnv : Nat
  created : Nat
deriving Repr, DecidableEq

/-- Progress of one in-flight `getOrCreateSandbox` call.  The call
has two atomic segments separated by the `await Sandbox.create`
suspension: the synchronous map check that initiates creation, and
the registration `activeSandboxes.set(key, sandbox)` performed only
after the awaits resolve. -/
inductive AcqTask where
  | start (sessionId mode : String)
  | creating (key : String) (env : Nat)
  | finished (env : Nat)
deriving Repr, DecidableEq

/-- One atomic segment of `getOrCreateSandbox` (src/lib/sandbox.ts
lines 107-141): from `start`, build the key `sessionId-mode`, return
the cached sandbox if the map has the key, otherwise issue
`Sandbox.create` (counted) and suspend; from `creating`, register
the new sandbox under the key and return it. -/
def acqStep : PoolSt → AcqTask → PoolSt × AcqTask
  | st, AcqTask.start sid mode =>
      let key := sid ++ "-" ++ mode
      match st.pool.lookup key with
      | some e => (st, AcqTask.finished e)
      | none =>
          ({ st with nextEnv := st.nextEnv + 1, created := st.created + 1 },
           AcqTask.creating key st.nextEnv)
  | st, AcqTask.creating key env =>
      ({ st with pool := (key, env) :: st.pool }, AcqTask.finished env)
  | st, AcqTask.finished e => (st, AcqTask.finished e)

/-- An uninterrupted `getOrCreateSandbox` call: both segments run
back to back (two steps always reach `finished` from `start`). -/
def runTask (st : PoolSt) (t : AcqTask) : PoolSt × AcqTask :=
  let s1 := acqStep st t
  acqStep s1.1 s1.2

/-- Interleaved execution of two in-flight calls under a schedule:
`true` steps the first task, `false` the second. -/
def acqRun2 : List Bool → PoolSt → AcqTask → AcqTask →
    PoolSt × AcqTask × AcqTask
  | [], st, t0, t1 => (st, t0, t1)
  | true :: sch, st, t0, t1 =>
      let s := acqStep st t0
      acqRun2 sch s.1 s.2 t1
  | false :: sch, st, t0, t1 =>
      let s := acqStep st t1
      acqRun2 sch s.1 t0 s.2

/-- The sandbox a task run has returned, when it has finished. -/
def envOf : AcqTask → Option Nat
  | AcqTask.finished e => some e
  | _ => none

/-- Result of the POST handler (route.ts lines 54-255): either the
outer catch's HTTP 500 JSON error response — produced before any
stream exists — or a streaming response carrying the event frames. -/
inductive HandlerResult where
  | serverError (msg : String)
  | streamed (events : List Ev)
deriving Repr, DecidableEq

/-- The event frames a handler result puts on the wire: a 500
response has no stream, hence no frames. -/
def eventsOf : HandlerResult → List Ev
  | HandlerResult.serverError _ => []
  | HandlerResult.streamed evs => evs

/-- The POST handler (route.ts lines 54-255).  Before the
`ReadableStream` is constructed the handler awaits, in order:
request-body parsing, sandbox acquisition (including on-demand
package installation inside `getOrCreateSandbox`), and per-file
injection via `uploadFileToSandbox`; a throw from any of these is
caught by the outer catch and answered with a 500 error response.
Only when all succeed is the stream opened and fed by the loop.
(The fire-and-forget persistence calls and the system-prompt fetch
catch their own failures and never throw.) -/
def postHandler (body : Except String (List Msg))
    (sandbox : Except String Nat)
    (inject : Except String Unit)
    (model : Nat → List Msg → Except String (List Block))
    (exec : Nat → String → ExecResult) : HandlerResult :=
  match body with
  | Except.error e => HandlerResult.serverError e
  | Except.ok msgs =>
      match sandbox with
      | Except.error e => HandlerResult.serverError e
      | Except.ok _ =>
          match inject with
          | Except.error e => HandlerResult.serverError e
          | Except.ok _ =>
              HandlerResult.streamed (streamEvents model exec msgs)

/-- Number of tool invocations among a response's blocks. -/
def countTools : List Block → Nat
  | [] => 0
  | Block.text _ :: rest => countTools rest
  | Block.toolUse _ _ :: rest => 1 + countTools rest

/-- Classifier for `output` frames. -/
def isOutputEv : Ev → Bool
  | Ev.output _ => true
  | _ => false

/-- Classifier for `error` frames. -/
def isErrorEv : Ev → Bool
  | Ev.error _ => true
  | _ => false

/-- Classifier for `image` frames. -/
def isImageEv : Ev → Bool
  | Ev.image _ => true
  | _ => false

/-- The claim's "number of non-empty fields" of an execution
outcome: the text field when non-empty, the error field when it
holds a non-empty description, and the images field when it holds
at least one image. -/
def specNonEmptyFieldCount (r : ExecResult) : Nat :=
  (if r.text = "" then 0 else 1) + (if r.error.getD "" = "" then 0 else 1) +
    (if r.images = [] then 0 else 1)

/-- Written from the claim's words, for comparison with the code's
`summaryOrDefault`: an output block if the text is non-empty, an
error block if the error is present (non-null), an image-count
notice if there is at least one image, joined in that fixed order
and separated by blank lines; the fixed sentinel when all three are
absent. -/
def claimSummary (r : ExecResult) : String :=
  let parts :=
    (if r.text = "" then [] else ["Output:\n" ++ r.text]) ++
    (match r.error with
     | none => []
     | some e => ["Error:\n" ++ e]) ++
    (if r.images.length = 0 then []
     else ["[" ++ toString r.images.length ++ " plot(s) generated and displayed]"])
  if parts = [] then "Code executed successfully." else joinSep "\n\n" parts

/-- The block list of the amended reading of the summary claim: an
output block when the text is non-empty, an error block when the
error description is truthy — present and non-empty, matching the
JavaScript `result.error ?` test — and an image-count notice when
there is at least one image, in that fixed order. -/
def amendedParts (r : ExecResult) : List String :=
  (if r.text = "" then [] else ["Output:\n" ++ r.text]) ++
  (if r.error.getD "" = "" then [] else ["Error:\n" ++ r.error.getD ""]) ++
  (if r.images.length = 0 then []
   else ["[" ++ toString r.images.length ++ " plot(s) generated and displayed]"])

/-- The amended reading of the summary claim: the present blocks
joined by blank lines, or the fixed sentinel when none is present. -/
def amendedSummary (r : ExecResult) : String :=
  if amendedParts r = [] then "Code executed successfully."
  else joinSep "\n\n" (amendedParts r)

/-- How many `tool_result` units with the given invocation id a
history fragment holds. -/
def resultCountFor (id : String) : List Msg → Nat
  | [] => 0
  | Msg.toolResult i _ :: rest =>
      (if i = id then 1 else 0) + resultCountFor id rest
  | _ :: rest => resultCountFor id rest

/-- The history invariant of the data model: every tool-invocation
unit, in every assistant message of the history, is followed by
exactly one `tool_result` unit referencing its invocation id. -/
def assistantOccurrencesOk : List Msg → Bool
  | [] => true
  | Msg.assistant content :: rest =>
      content.all (fun b =>
        match b with
        | Block.toolUse i _ => resultCountFor i rest == 1
        | _ => true) && assistantOccurrencesOk rest
  | _ :: rest => assistantOccurrencesOk rest

/-- Whether an awaited step threw. -/
def isErr {α : Type} : Except String α → Bool
  | Except.error _ => true
  | Except.ok _ => false

/-- A string with a non-empty left part is non-empty. -/
theorem append_ne_left (s t : String) (h : s ≠ "") : s ++ t ≠ "" := by
  intro hc
  apply h
  have hd := congrArg String.data hc
  simp only [String.data_append] at hd
  rcases List.append_eq_nil.mp hd with ⟨h1, _⟩
  exact String.ext h1

/-- A join whose first part is non-empty is non-empty. -/
theorem joinSep_ne (sep a : String) (rest : List String) (h : a ≠ "") :
    joinSep sep (a :: rest) ≠ "" := by
  cases rest with
  | nil => simpa [joinSep] using h
  | cons b t =>
      show a ++ sep ++ joinSep sep (b :: t) ≠ ""
      exact append_ne_left _ _ (append_ne_left _ _ h)

/-- Every part of a join occurs verbatim inside it. -/
theorem joinSep_mem (sep x : String) :
    ∀ l : List String, x ∈ l → ∃ a b, joinSep sep l = a ++ x ++ b := by
  intro l
  induction l with
  | nil => intro h; simp at h
  | cons hd t ih =>
      intro hmem
      rcases List.mem_cons.mp hmem with rfl | hmem
      · cases t with
        | nil => exact ⟨"", "", by simp [joinSep]⟩
        | cons b t2 =>
            refine ⟨"", sep ++ joinSep sep (b :: t2), ?_⟩
            show x ++ sep ++ joinSep sep (b :: t2) = "" ++ x ++ (sep ++ joinSep sep (b :: t2))
            simp [String.append_assoc]
      · rcases ih hmem with ⟨a, b, hab⟩
        cases t with
        | nil => simp at hmem
        | cons c t2 =>
            refine ⟨hd ++ sep ++ a, b, ?_⟩
            show hd ++ sep ++ joinSep sep (c :: t2) = hd ++ sep ++ a ++ x ++ b
            rw [hab]
            simp [String.append_assoc]

/-- No `done` frame is among the events of one execution result. -/
theorem done_not_mem_resultEvents (r : ExecResult) :
    Ev.done ∉ resultEvents r := by
  unfold resultEvents
  intro h
  rcases List.mem_append.mp h with h | h
  · rcases List.mem_append.mp h with h | h
    · split at h <;> simp_all
    · split at h <;> simp_all
  · simp at h

/-- Block processing emits no `done` frame. -/
theorem done_not_mem_processBlocks (exec : Nat → String → ExecResult)
    (full : List Block) :
    ∀ (blocks : List Block) (st : PB), Ev.done ∉ st.events →
      Ev.done ∉ (processBlocks exec full blocks st).events := by
  intro blocks
  induction blocks with
  | nil => intro st h; simpa [processBlocks] using h
  | cons b rest ih =>
      intro st h
      cases b with
      | text s =>
          apply ih
          simp [List.mem_append, h]
      | toolUse id code =>
          apply ih
          simp [List.mem_append, h,
            done_not_mem_resultEvents (exec st.execN code)]

/-- The loop body emits no `done` frame; `done` is only appended
after the loop exits. -/
theorem done_not_mem_runLoop (model : Nat → List Msg → Except String (List Block))
    (exec : Nat → String → ExecResult) :
    ∀ (fuel iter execN : Nat) (msgs : List Msg),
      Ev.done ∉ (runLoop model exec fuel iter execN msgs).events := by
  intro fuel
  induction fuel with
  | zero => intro iter execN msgs; simp [runLoop]
  | succ n ih =>
      intro iter execN msgs
      simp only [runLoop]
      cases hm : model iter msgs with
      | error e => simp
      | ok blocks =>
          simp only []
          by_cases hb : (processBlocks exec blocks blocks ⟨msgs, [], false, execN⟩).hasTool
          · simp only [hb, if_true]
            intro hmem
            rcases List.mem_append.mp hmem with hmem | hmem
            · exact done_not_mem_processBlocks exec blocks blocks
                ⟨msgs, [], false, execN⟩ (by simp) hmem
            · exact ih (iter + 1) _ _ hmem
          · simp only [hb, if_false]
            exact done_not_mem_processBlocks exec blocks blocks
              ⟨msgs, [], false, execN⟩ (by simp)

/-- The loop never issues more model calls than it has fuel. -/
theorem runLoop_calls_le (model : Nat → List Msg → Except String (List Block))
    (exec : Nat → String → ExecResult) :
    ∀ (fuel iter execN : Nat) (msgs : List Msg),
      (runLoop model exec fuel iter execN msgs).calls ≤ fuel := by
  intro fuel
  induction fuel with
  | zero => intro iter execN msgs; simp [runLoop]
  | succ n ih =>
      intro iter execN msgs
      simp only [runLoop]
      cases hm : model iter msgs with
      | error e => simp
      | ok blocks =>
          simp only []
          by_cases hb : (processBlocks exec blocks blocks ⟨msgs, [], false, execN⟩).hasTool
          · have := ih (iter + 1)
              (processBlocks exec blocks blocks ⟨msgs, [], false, execN⟩).execN
              (processBlocks exec blocks blocks ⟨msgs, [], false, execN⟩).msgs
            simp only [hb, if_true]
            omega
          · simp [hb]

/-- With fuel remaining, entering the loop issues at least one call. -/
theorem runLoop_calls_pos (model : Nat → List Msg → Except String (List Block))
    (exec : Nat → String → ExecResult) (fuel iter execN : Nat) (msgs : List Msg) :
    1 ≤ (runLoop model exec (fuel + 1) iter execN msgs).calls := by
  simp only [runLoop]
  cases hm : model iter msgs with
  | error e => simp
  | ok blocks =>
      simp only []
      by_cases hb : (processBlocks exec blocks blocks ⟨msgs, [], false, execN⟩).hasTool
      · simp only [hb, if_true]; omega
      · simp [hb]

/-- Terminal-frame dichotomy of the stream, keyed to whether an
exception aborted the loop. -/
theorem streamEvents_last_aux (model : Nat → List Msg → Except String (List Block))
    (exec : Nat → String → ExecResult) (msgs : List Msg) :
    ((runLoop model exec maxIterations 0 0 msgs).fault = none →
      (streamEvents model exec msgs).getLast? = some Ev.done ∧
      (streamEvents model exec msgs).count Ev.done = 1) ∧
    (∀ e, (runLoop model exec maxIterations 0 0 msgs).fault = some e →
      (streamEvents model exec msgs).getLast? = some (Ev.error e) ∧
      (streamEvents model exec msgs).count Ev.done = 0) := by
  have hmem := done_not_mem_runLoop model exec maxIterations 0 0 msgs
  constructor
  · intro hf
    unfold streamEvents
    rw [hf]
    constructor
    · exact List.getLast?_concat _
    · rw [List.count_append, List.count_eq_zero.mpr hmem]
      simp
  · intro e hf
    unfold streamEvents
    rw [hf]
    constructor
    · exact List.getLast?_concat _
    · rw [List.count_append, List.count_eq_zero.mpr hmem]
      simp

/-- Block processing splits along list append. -/
theorem processBlocks_append (exec : Nat → String → ExecResult)
    (full : List Block) :
    ∀ (l1 l2 : List Block) (st : PB),
      processBlocks exec full (l1 ++ l2) st =
        processBlocks exec full l2 (processBlocks exec full l1 st) := by
  intro l1
  induction l1 with
  | nil => intro l2 st; rfl
  | cons b rest ih =>
      intro l2 st
      cases b with
      | text s => simpa [processBlocks] using ih l2 _
      | toolUse id code => simpa [processBlocks] using ih l2 _

/-- The invocation counter advances by the number of tool uses. -/
theorem processBlocks_execN (exec : Nat → String → ExecResult)
    (full : List Block) :
    ∀ (blocks : List Block) (st : PB),
      (processBlocks exec full blocks st).execN = st.execN + countTools blocks := by
  intro blocks
  induction blocks with
  | nil => intro st; simp [processBlocks, countTools]
  | cons b rest ih =>
      intro st
      cases b with
      | text s => simp [processBlocks, countTools, ih]
      | toolUse id code => simp [processBlocks, countTools, ih]; omega

/-- Block processing only appends to the event record. -/
theorem processBlocks_events_mono (exec : Nat → String → ExecResult)
    (full : List Block) :
    ∀ (blocks : List Block) (st : PB) (x : Ev),
      x ∈ st.events → x ∈ (processBlocks exec full blocks st).events := by
  intro blocks
  induction blocks with
  | nil => intro st x h; simpa [processBlocks] using h
  | cons b rest ih =>
      intro st x h
      cases b with
      | text s => exact ih _ x (by simp [h])
      | toolUse id code => exact ih _ x (by simp [h])

/-- Block processing only appends to the conversation history. -/
theorem processBlocks_msgs_mono (exec : Nat → String → ExecResult)
    (full : List Block) :
    ∀ (blocks : List Block) (st : PB) (x : Msg),
      x ∈ st.msgs → x ∈ (processBlocks exec full blocks st).msgs := by
  intro blocks
  induction blocks with
  | nil => intro st x h; simpa [processBlocks] using h
  | cons b rest ih =>
      intro st x h
      cases b with
      | text s => exact ih _ x (by simpa [processBlocks] using h)
      | toolUse id code => exact ih _ x (by simp [h])

/-- Once set, `hasToolUse` stays set across block processing. -/
theorem processBlocks_hasTool_mono (exec : Nat → String → ExecResult)
    (full : List Block) :
    ∀ (blocks : List Block) (st : PB),
      st.hasTool = true → (processBlocks exec full blocks st).hasTool = true := by
  intro blocks
  induction blocks with
  | nil => intro st h; simpa [processBlocks] using h
  | cons b rest ih =>
      intro st h
      cases b with
      | text s => exact ih _ (by simpa using h)
      | toolUse id code => exact ih _ (by simp)

/-- A response containing a tool invocation sets `hasToolUse`. -/
theorem processBlocks_hasTool (exec : Nat → String → ExecResult)
    (full : List Block) :
    ∀ (blocks : List Block) (st : PB) (i c : String),
      Block.toolUse i c ∈ blocks →
      (processBlocks exec full blocks st).hasTool = true := by
  intro blocks
  induction blocks with
  | nil => intro st i c h; simp at h
  | cons b rest ih =>
      intro st i c h
      cases b with
      | text s =>
          rcases List.mem_cons.mp h with h | h
          · simp at h
          · exact ih _ i c h
      | toolUse id code =>
          rcases List.mem_cons.mp h with h | h
          · simp only [processBlocks]
            exact processBlocks_hasTool_mono exec full _ _ rfl
          · exact ih _ i c h

/-- C1: for every request whose event stream is opened, the emitted
event sequence terminates with exactly one `done` frame or exactly
one terminal `error` frame, never both and never neither: on normal
loop exit — iteration-cap exhaustion included — exactly one `done`
is emitted, and on an exception during model invocation the last
frame is a single terminal `error`, no `done` frame occurs, and the
stream is closed either way. -/
theorem stream_done_xor_terminal_error
    (model : Nat → List Msg → Except String (List Block))
    (exec : Nat → String → ExecResult) (msgs : List Msg) :
    (((streamEvents model exec msgs).getLast? = some Ev.done ∧
        (streamEvents model exec msgs).count Ev.done = 1) ∨
      (∃ e, (streamEvents model exec msgs).getLast? = some (Ev.error e) ∧
        (streamEvents model exec msgs).count Ev.done = 0)) ∧
    ((runLoop model exec maxIterations 0 0 msgs).fault = none →
      (streamEvents model exec msgs).getLast? = some Ev.done ∧
      (streamEvents model exec msgs).count Ev.done = 1) ∧
    (∀ e, (runLoop model exec maxIterations 0 0 msgs).fault = some e →
      (streamEvents model exec msgs).getLast? = some (Ev.error e) ∧
      (streamEvents model exec msgs).count Ev.done = 0) := by
  refine ⟨?_, (streamEvents_last_aux model exec msgs).1,
    (streamEvents_last_aux model exec msgs).2⟩
  cases hf : (runLoop model exec maxIterations 0 0 msgs).fault with
  | none => exact Or.inl ((streamEvents_last_aux model exec msgs).1 hf)
  | some e => exact Or.inr ⟨e, (streamEvents_last_aux model exec msgs).2 e hf⟩

/-- Witness for C1 at a concrete request: a model that answers with
plain text yields a stream ending in its one `done` frame. -/
theorem stream_done_xor_terminal_error_witness :
    (streamEvents (fun _ _ => Except.ok [Block.text "hi"])
        (fun _ _ => ⟨"", [], none⟩) []).getLast? = some Ev.done ∧
    (streamEvents (fun _ _ => Except.ok [Block.text "hi"])
        (fun _ _ => ⟨"", [], none⟩) []).count Ev.done = 1 := by
  exact (stream_done_xor_terminal_error (fun _ _ => Except.ok [Block.text "hi"])
    (fun _ _ => ⟨"", [], none⟩) []).2.1 (by decide)

/-- C5: `executeCode` is total toward its caller — a thrown timeout
or harness fault is captured as an outcome with empty text, no
images, and a non-null error description, never re-thrown (the
embedding returns an `ExecResult` for every input). -/
theorem executeCode_captures_faults (msg : String) :
    (executeCode (Except.error msg)).text = "" ∧
    (executeCode (Except.error msg)).images = [] ∧
    (executeCode (Except.error msg)).error =
      some (if msg = "" then "Execution failed" else msg) ∧
    (executeCode (Except.error msg)).error ≠ none := by
  refine ⟨rfl, rfl, rfl, ?_⟩
  simp [executeCode]

/-- C7: the loop never issues more than `maxIterations` model calls,
and when it exits without a fault — cap exhaustion included — the
stream still ends with a `done` frame and no distinct cap-reached
signal exists among the frame kinds. -/
theorem loop_iteration_cap
    (model : Nat → List Msg → Except String (List Block))
    (exec : Nat → String → ExecResult) (msgs : List Msg) :
    (runLoop model exec maxIterations 0 0 msgs).calls ≤ maxIterations ∧
    ((runLoop model exec maxIterations 0 0 msgs).fault = none →
      (streamEvents model exec msgs).getLast? = some Ev.done) := by
  refine ⟨runLoop_calls_le model exec maxIterations 0 0 msgs, fun hf => ?_⟩
  exact ((streamEvents_last_aux model exec msgs).1 hf).1

/-- Witness for C7 at the cap-exhaustion scenario: a model that
requests a tool on every iteration is called exactly ten times and
the stream still ends with `done`. -/
theorem loop_iteration_cap_witness :
    (runLoop (fun _ _ => Except.ok [Block.toolUse "t" "c"])
        (fun _ _ => ⟨"", [], none⟩) maxIterations 0 0 []).calls = 10 ∧
    (runLoop (fun _ _ => Except.ok [Block.toolUse "t" "c"])
        (fun _ _ => ⟨"", [], none⟩) maxIterations 0 0 []).calls ≤ maxIterations ∧
    (streamEvents (fun _ _ => Except.ok [Block.toolUse "t" "c"])
        (fun _ _ => ⟨"", [], none⟩) []).getLast? = some Ev.done := by
  have h := loop_iteration_cap (fun _ _ => Except.ok [Block.toolUse "t" "c"])
    (fun _ _ => ⟨"", [], none⟩) []
  exact ⟨by decide, h.1, h.2 (by decide)⟩

/-- C4 counterexample: two concurrent `getOrCreateSandbox` calls for
the same `(sessionId, mode)` key — both checking the map before
either registers — issue two `Sandbox.create` calls and return two
different environments; there is no per-key creation lock. -/
theorem concurrent_acquire_creates_two :
    (acqRun2 [true, false, true, false] ⟨[], 0, 0⟩
        (AcqTask.start "s" "m") (AcqTask.start "s" "m")).1.created = 2 ∧
    (acqRun2 [true, false, true, false] ⟨[], 0, 0⟩
        (AcqTask.start "s" "m") (AcqTask.start "s" "m")).2.1 = AcqTask.finished 0 ∧
    (acqRun2 [true, false, true, false] ⟨[], 0, 0⟩
        (AcqTask.start "s" "m") (AcqTask.start "s" "m")).2.2 = AcqTask.finished 1 := by
  decide

/-- C4 amended: an uninterrupted `getOrCreateSandbox` call followed
sequentially by a second one for the same key returns the same
environment, leaves the pool state untouched the second time, and —
when the key was initially absent — creates exactly one
environment. -/
theorem acquire_sequential_single_creation (st : PoolSt) (sid mode : String) :
    ∃ e, envOf (runTask st (AcqTask.start sid mode)).2 = some e ∧
      runTask (runTask st (AcqTask.start sid mode)).1 (AcqTask.start sid mode) =
        ((runTask st (AcqTask.start sid mode)).1, AcqTask.finished e) ∧
      ((st.pool.lookup (sid ++ "-" ++ mode)).isNone →
        (runTask st (AcqTask.start sid mode)).1.created = st.created + 1) := by
  cases hl : st.pool.lookup (sid ++ "-" ++ mode) with
  | some e =>
      refine ⟨e, ?_, ?_, ?_⟩
      · simp [runTask, acqStep, hl, envOf]
      · simp [runTask, acqStep, hl]
      · intro h; simp [hl] at h
  | none =>
      refine ⟨st.nextEnv, ?_, ?_, ?_⟩
      · simp [runTask, acqStep, hl, envOf]
      · simp [runTask, acqStep, hl, List.lookup]
      · intro _; simp [runTask, acqStep, hl]

/-- Witness for C4's amended statement on a fresh pool. -/
theorem acquire_sequential_single_creation_witness :
    envOf (runTask ⟨[], 0, 0⟩ (AcqTask.start "s" "m")).2 = some 0 ∧
    runTask (runTask ⟨[], 0, 0⟩ (AcqTask.start "s" "m")).1 (AcqTask.start "s" "m") =
      ((runTask ⟨[], 0, 0⟩ (AcqTask.start "s" "m")).1, AcqTask.finished 0) ∧
    (runTask ⟨[], 0, 0⟩ (AcqTask.start "s" "m")).1.created = 0 + 1 := by
  obtain ⟨e, h1, h2, h3⟩ := acquire_sequential_single_creation ⟨[], 0, 0⟩ "s" "m"
  have h0 : envOf (runTask ⟨[], 0, 0⟩ (AcqTask.start "s" "m")).2 = some 0 := by decide
  have he : e = 0 := Option.some_inj.mp (h1.symm.trans h0)
  subst he
  exact ⟨h1, h2, h3 (by decide)⟩

/-- C9 counterexample: with the stderr line emitted before the
stdout line, the captured text is the stdout block followed by the
stderr block — "ab", not the emission-order merge "b\na"; the two
channel arrays are also concatenated without any separator. -/
theorem captured_text_not_emission_order :
    (executeCode (Except.ok
        (mkExecution [(Chan.err, "b"), (Chan.out, "a")] [] none))).text = "ab" ∧
    specMergedText [(Chan.err, "b"), (Chan.out, "a")] = "b\na" ∧
    ("ab" : String) ≠ "b\na" := by
  decide

/-- C9 amended: the captured text is all stdout lines joined with
newlines, concatenated — with no separator — with all stderr lines
joined with newlines, then trimmed; it depends only on the two
per-channel projections of the log, not on the emission
interleaving. -/
theorem captured_text_channel_grouped (l l2 : List (Chan × String))
    (res res2 : List CellResult) (err err2 : Option ExecFault)
    (ho : stdoutOf l = stdoutOf l2) (he : stderrOf l = stderrOf l2) :
    (executeCode (Except.ok (mkExecution l res err))).text =
      jsTrim (joinSep "\n" (stdoutOf l) ++ joinSep "\n" (stderrOf l)) ∧
    (executeCode (Except.ok (mkExecution l res err))).text =
      (executeCode (Except.ok (mkExecution l2 res2 err2))).text := by
  refine ⟨rfl, ?_⟩
  simp only [executeCode, mkExecution, ho, he]

/-- Witness for C9's amended statement: two interleavings with equal
projections produce the same captured text. -/
theorem captured_text_channel_grouped_witness :
    stdoutOf [(Chan.out, "a"), (Chan.err, "b")] =
      stdoutOf [(Chan.err, "b"), (Chan.out, "a")] ∧
    (executeCode (Except.ok
        (mkExecution [(Chan.out, "a"), (Chan.err, "b")] [] none))).text =
      (executeCode (Except.ok
        (mkExecution [(Chan.err, "b"), (Chan.out, "a")] [] none))).text := by
  refine ⟨by decide, ?_⟩
  exact (captured_text_channel_grouped _ _ _ _ _ _ (by decide) (by decide)).2

/-- C10: a throw from request parsing, sandbox acquisition, or file
injection — all awaited before the `ReadableStream` is constructed —
produces an HTTP 500 error response with no stream and hence no
frames at all; only when all three succeed is a stream returned, and
that stream ends with `done` or a terminal `error`. -/
theorem handler_500_before_stream
    (body : Except String (List Msg)) (sandbox : Except String Nat)
    (inject : Except String Unit)
    (model : Nat → List Msg → Except String (List Block))
    (exec : Nat → String → ExecResult) :
    ((isErr body || isErr sandbox || isErr inject) = true ↔
      ∃ e, postHandler body sandbox inject model exec =
        HandlerResult.serverError e) ∧
    (∀ e, postHandler body sandbox inject model exec =
        HandlerResult.serverError e →
      eventsOf (postHandler body sandbox inject model exec) = []) ∧
    (∀ evs, postHandler body sandbox inject model exec =
        HandlerResult.streamed evs →
      evs.getLast? = some Ev.done ∨ ∃ m, evs.getLast? = some (Ev.error m)) := by
  rcases body with e | msgs
  · refine ⟨?_, ?_, ?_⟩ <;> simp [postHandler, isErr, eventsOf]
  rcases sandbox with e | sb
  · refine ⟨?_, ?_, ?_⟩ <;> simp [postHandler, isErr, eventsOf]
  rcases inject with e | u
  · refine ⟨?_, ?_, ?_⟩ <;> simp [postHandler, isErr, eventsOf]
  refine ⟨?_, ?_, ?_⟩
  · simp [postHandler, isErr]
  · simp [postHandler]
  · intro evs h
    simp only [postHandler] at h
    injection h with h
    subst h
    cases hf : (runLoop model exec maxIterations 0 0 msgs).fault with
    | none => exact Or.inl ((streamEvents_last_aux model exec msgs).1 hf).1
    | some m => exact Or.inr ⟨m, ((streamEvents_last_aux model exec msgs).2 m hf).1⟩

/-- Witness for C10: a parse failure yields the 500 result and an
empty frame sequence. -/
theorem handler_500_before_stream_witness :
    eventsOf (postHandler (Except.error "bad json") (Except.ok 0) (Except.ok ())
      (fun _ _ => Except.ok []) (fun _ _ => ⟨"", [], none⟩)) = [] := by
  exact (handler_500_before_stream (Except.error "bad json") (Except.ok 0)
    (Except.ok ()) (fun _ _ => Except.ok []) (fun _ _ => ⟨"", [], none⟩)).2.1
    "bad json" rfl

/-- A join of parts is empty exactly when there are no parts, as
long as every part is non-empty. -/
theorem joinSep_eq_empty_iff (sep : String) (l : List String)
    (h : ∀ x ∈ l, x ≠ "") : joinSep sep l = "" ↔ l = [] := by
  cases l with
  | nil => simp [joinSep]
  | cons a rest =>
      simp only [List.cons_ne_nil, iff_false]
      exact joinSep_ne sep a rest (h a (by simp))

/-- Every block of the amended summary is a non-empty string. -/
theorem amendedParts_ne (r : ExecResult) :
    ∀ x ∈ amendedParts r, x ≠ "" := by
  intro x hx
  have h1 : ("Output:\n" ++ r.text) ≠ "" := append_ne_left _ _ (by decide)
  have h2 : ("Error:\n" ++ r.error.getD "") ≠ "" := append_ne_left _ _ (by decide)
  have h3 : ("[" ++ toString r.images.length ++
      " plot(s) generated and displayed]") ≠ "" :=
    append_ne_left _ _ (append_ne_left _ _ (by decide))
  unfold amendedParts at hx
  rcases List.mem_append.mp hx with hx | hx
  · rcases List.mem_append.mp hx with hx | hx
    · split at hx <;> simp_all
    · split at hx <;> simp_all
  · split at hx <;> simp_all

/-- The falsy-filtered summary blocks of the code coincide with the
amended claim's block list. -/
theorem summaryParts_filter_eq (r : ExecResult) :
    (summaryParts r).filter (fun s => s ≠ "") = amendedParts r := by
  have h1 : ("Output:\n" ++ r.text) ≠ "" := append_ne_left _ _ (by decide)
  have h2 : ("Error:\n" ++ r.error.getD "") ≠ "" := append_ne_left _ _ (by decide)
  have h3 : ("[" ++ toString r.images.length ++
      " plot(s) generated and displayed]") ≠ "" :=
    append_ne_left _ _ (append_ne_left _ _ (by decide))
  unfold summaryParts amendedParts
  by_cases ht : r.text = "" <;> by_cases he : r.error.getD "" = "" <;>
    by_cases hi : r.images.length = 0 <;>
    simp [ht, he, hi, h1, h2, h3, List.filter]

/-- C3 counterexample: for the outcome with text "x" and a present
but empty error description, the claim's summary carries an error
block while the code's summary — built with the JavaScript truthy
test `result.error ?` — drops it. -/
theorem summary_drops_empty_error :
    claimSummary ⟨"x", [], some ""⟩ = "Output:\nx\n\nError:\n" ∧
    summaryOrDefault ⟨"x", [], some ""⟩ = "Output:\nx" ∧
    claimSummary ⟨"x", [], some ""⟩ ≠ summaryOrDefault ⟨"x", [], some ""⟩ := by
  decide

/-- C3 amended: the tool-result summary consists of an output block
if the text is non-empty, an error block if the error is present
with a non-empty description, and an image-count notice if there is
at least one image, joined in that fixed order separated by blank
lines; when none is present it equals the fixed "executed
successfully" sentinel, and it is never empty. -/
theorem summary_fixed_order_never_empty (r : ExecResult) :
    summaryOrDefault r = amendedSummary r ∧ summaryOrDefault r ≠ "" := by
  have hparts := summaryParts_filter_eq r
  have hiff := joinSep_eq_empty_iff "\n\n" (amendedParts r) (amendedParts_ne r)
  constructor
  · unfold summaryOrDefault toolResultContent amendedSummary
    rw [hparts]
    by_cases hL : amendedParts r = []
    · simp [hL, joinSep]
    · rw [if_neg (fun hc => hL (hiff.mp hc)), if_neg hL]
  · unfold summaryOrDefault
    split
    · decide
    · next h => exact h

/-- Witness for C3's amended statement at a concrete outcome. -/
theorem summary_fixed_order_never_empty_witness :
    summaryOrDefault ⟨"4", ["png"], some "boom"⟩ =
      amendedSummary ⟨"4", ["png"], some "boom"⟩ ∧
    summaryOrDefault ⟨"4", ["png"], some "boom"⟩ ≠ "" := by
  exact summary_fixed_order_never_empty ⟨"4", ["png"], some "boom"⟩

/-- C2 counterexample: an outcome with non-empty text, a non-empty
error, and two images yields four streamed result frames, while its
number of non-empty fields is three — the claimed equality (and the
0–3 bound) fails as soon as an outcome carries two images. -/
theorem resultEvents_exceed_field_count :
    (resultEvents ⟨"a", ["i", "j"], some "b"⟩).length = 4 ∧
    specNonEmptyFieldCount ⟨"a", ["i", "j"], some "b"⟩ = 3 := by
  decide

/-- C2 amended: per tool invocation the code emits at most one
`output` frame (exactly when the text is non-empty), at most one
`error` frame (exactly when the error is present and non-empty), and
exactly one `image` frame per image in the outcome's original order;
the total frame count is the non-empty text/error field count plus
the number of images, which equals the number of non-empty fields
whenever the outcome has at most one image. -/
theorem resultEvents_field_mapping (r : ExecResult) :
    ((resultEvents r).filter isOutputEv).length = (if r.text = "" then 0 else 1) ∧
    ((resultEvents r).filter isErrorEv).length =
      (if r.error.getD "" = "" then 0 else 1) ∧
    (resultEvents r).filter isImageEv = r.images.map Ev.image ∧
    (resultEvents r).length =
      (if r.text = "" then 0 else 1) + (if r.error.getD "" = "" then 0 else 1) +
        r.images.length ∧
    (r.images.length ≤ 1 →
      (resultEvents r).length = specNonEmptyFieldCount r) := by
  obtain ⟨t, imgs, err⟩ := r
  refine ⟨?_, ?_, ?_, ?_, ?_⟩
  · by_cases ht : t = "" <;> by_cases he : err.getD "" = "" <;>
      simp [resultEvents, ht, he, isOutputEv, isErrorEv, isImageEv,
        List.filter_append, List.filter_map, Function.comp]
  · by_cases ht : t = "" <;> by_cases he : err.getD "" = "" <;>
      simp [resultEvents, ht, he, isOutputEv, isErrorEv, isImageEv,
        List.filter_append, List.filter_map, Function.comp]
  · have hcomp : (isImageEv ∘ Ev.image) = fun _ => true := funext fun a => rfl
    by_cases ht : t = "" <;> by_cases he : err.getD "" = "" <;>
      simp [resultEvents, ht, he, isOutputEv, isErrorEv, isImageEv,
        List.filter_append, List.filter_map, hcomp]
  · by_cases ht : t = "" <;> by_cases he : err.getD "" = "" <;>
      simp [resultEvents, ht, he] <;> omega
  · intro himg
    rcases imgs with _ | ⟨a, rest⟩
    · by_cases ht : t = "" <;> by_cases he : err.getD "" = "" <;>
        simp [resultEvents, specNonEmptyFieldCount, ht, he]
    · rcases rest with _ | ⟨b, rest2⟩
      · by_cases ht : t = "" <;> by_cases he : err.getD "" = "" <;>
          simp [resultEvents, specNonEmptyFieldCount, ht, he]
      · simp at himg

/-- Witness for C2's amended statement at a concrete outcome. -/
theorem resultEvents_field_mapping_witness :
    (resultEvents ⟨"4", ["png"], none⟩).length = 2 ∧
    (resultEvents ⟨"4", ["png"], none⟩).length =
      specNonEmptyFieldCount ⟨"4", ["png"], none⟩ := by
  refine ⟨by decide, ?_⟩
  exact (resultEvents_field_mapping ⟨"4", ["png"], none⟩).2.2.2.2 (by decide)

/-- C8, evaluated at the failing input — a model response holding
two tool invocations.  The shared `assistantContent` array makes the
reference semantics of the loop differ from the value (snapshot)
semantics that "immutable once appended" would give: the assistant
unit appended at the first invocation is mutated afterwards.  In the
resulting history the duplicated tool-invocation units of the second
assistant copy are not followed by matching tool-result units, so
the exactly-one-result invariant fails on the history the next model
call would receive. -/
theorem history_mutation_unmatched_toolUse :
    processBlocks (fun _ _ => ⟨"", [], none⟩)
        [Block.toolUse "t1" "c1", Block.toolUse "t2" "c2"]
        [Block.toolUse "t1" "c1", Block.toolUse "t2" "c2"]
        ⟨[], [], false, 0⟩ ≠
      processBlocksSnap (fun _ _ => ⟨"", [], none⟩)
        [Block.toolUse "t1" "c1", Block.toolUse "t2" "c2"] []
        ⟨[], [], false, 0⟩ ∧
    assistantOccurrencesOk (processBlocks (fun _ _ => ⟨"", [], none⟩)
        [Block.toolUse "t1" "c1", Block.toolUse "t2" "c2"]
        [Block.toolUse "t1" "c1", Block.toolUse "t2" "c2"]
        ⟨[], [], false, 0⟩).msgs = false := by
  decide

/-- C6 counterexample: an execution outcome can carry a present but
empty error description — `executeCode` produces it whenever the
remote error object's `value` is the empty string — and that error
is non-null yet is not surfaced: the invocation emits no `error`
frame (only the `code` frame) and the tool-result unit carries the
success sentinel instead of any error text, because the code guards
with the truthy test `if (result.error)`. -/
theorem empty_error_not_surfaced :
    (executeCode (Except.ok (mkExecution [] [] (some ⟨""⟩)))).error = some "" ∧
    resultEvents (executeCode (Except.ok (mkExecution [] [] (some ⟨""⟩)))) = [] ∧
    (processBlocks
        (fun _ _ => executeCode (Except.ok (mkExecution [] [] (some ⟨""⟩))))
        [Block.toolUse "t" "c"] [Block.toolUse "t" "c"]
        ⟨[], [], false, 0⟩).events = [Ev.code "c"] ∧
    (processBlocks
        (fun _ _ => executeCode (Except.ok (mkExecution [] [] (some ⟨""⟩))))
        [Block.toolUse "t" "c"] [Block.toolUse "t" "c"]
        ⟨[], [], false, 0⟩).msgs =
      [Msg.assistant [Block.toolUse "t" "c"],
       Msg.toolResult "t" "Code executed successfully."] := by
  decide

/-- A truthy error description appears verbatim, behind its "Error:"
header, inside the tool-result summary. -/
theorem summary_contains_error (r : ExecResult) (e : String)
    (he : r.error = some e) (hne : e ≠ "") :
    ∃ a b, summaryOrDefault r = a ++ ("Error:\n" ++ e) ++ b := by
  have hgd : r.error.getD "" = e := by rw [he]; rfl
  have hmem : ("Error:\n" ++ e) ∈ amendedParts r := by
    unfold amendedParts
    rw [hgd]
    simp [hne]
  have hne2 : toolResultContent r ≠ "" := by
    unfold toolResultContent
    rw [summaryParts_filter_eq]
    intro hc
    have h0 := (joinSep_eq_empty_iff "\n\n" (amendedParts r)
      (amendedParts_ne r)).mp hc
    rw [h0] at hmem
    simp at hmem
  have hs : summaryOrDefault r = toolResultContent r := by
    unfold summaryOrDefault
    rw [if_neg hne2]
  rw [hs]
  unfold toolResultContent
  rw [summaryParts_filter_eq]
  exact joinSep_mem "\n\n" _ _ hmem

/-- C6: a tool invocation whose execution outcome carries a truthy
error is surfaced as an `error` frame, its error text is embedded —
behind the "Error:" header — in the tool-result unit appended to the
history, and the loop continues: with fuel remaining after a
tool-using response, at least one further model call is issued (in
contrast to a model-call failure, which aborts the loop). -/
theorem exec_error_event_and_continue
    (exec : Nat → String → ExecResult) (full pre post : List Block)
    (id code : String) (st : PB) (e : String)
    (he : (exec (st.execN + countTools pre) code).error = some e)
    (hne : e ≠ "")
    (model : Nat → List Msg → Except String (List Block))
    (msgs : List Msg) (fuel iter execN : Nat) (blocks : List Block)
    (hm : model iter msgs = Except.ok blocks)
    (i c : String) (hblocks : Block.toolUse i c ∈ blocks) :
    (Ev.error e ∈
        (processBlocks exec full (pre ++ Block.toolUse id code :: post) st).events ∧
      Msg.toolResult id
          (summaryOrDefault (exec (st.execN + countTools pre) code)) ∈
        (processBlocks exec full (pre ++ Block.toolUse id code :: post) st).msgs ∧
      ∃ a b, summaryOrDefault (exec (st.execN + countTools pre) code) =
        a ++ ("Error:\n" ++ e) ++ b) ∧
    2 ≤ (runLoop model exec (fuel + 2) iter execN msgs).calls := by
  have hexN := processBlocks_execN exec full pre st
  have hr : exec (processBlocks exec full pre st).execN code =
      exec (st.execN + countTools pre) code := by rw [hexN]
  constructor
  · rw [processBlocks_append]
    constructor
    · simp only [processBlocks]
      apply processBlocks_events_mono
      have hmemE : Ev.error e ∈ resultEvents (exec (st.execN + countTools pre) code) := by
        unfold resultEvents
        rw [he]
        simp [hne]
      simp [hr, hmemE]
    constructor
    · simp only [processBlocks]
      apply processBlocks_msgs_mono
      simp [hr]
    · exact summary_contains_error _ e he hne
  · have hTool := processBlocks_hasTool exec blocks blocks
      ⟨msgs, [], false, execN⟩ i c hblocks
    have hpos := runLoop_calls_pos model exec fuel (iter + 1)
      (processBlocks exec blocks blocks ⟨msgs, [], false, execN⟩).execN
      (processBlocks exec blocks blocks ⟨msgs, [], false, execN⟩).msgs
    show 2 ≤ (runLoop model exec (fuel + 1 + 1) iter execN msgs).calls
    simp only [runLoop, hm]
    rw [if_pos hTool]
    exact Nat.add_le_add_left hpos 1

/-- Witness for C6: an execution that fails with "boom" yields the
`error` frame and the loop still issues the second model call. -/
theorem exec_error_event_and_continue_witness :
    Ev.error "boom" ∈ (processBlocks (fun _ _ => ⟨"", [], some "boom"⟩)
        [Block.toolUse "t" "c"] [Block.toolUse "t" "c"]
        ⟨[], [], false, 0⟩).events ∧
    2 ≤ (runLoop (fun _ _ => Except.ok [Block.toolUse "t" "c"])
        (fun _ _ => ⟨"", [], some "boom"⟩) 2 0 0 []).calls := by
  have h := exec_error_event_and_continue (fun _ _ => ⟨"", [], some "boom"⟩)
    [Block.toolUse "t" "c"] [] [] "t" "c" ⟨[], [], false, 0⟩ "boom" rfl (by decide)
    (fun _ _ => Except.ok [Block.toolUse "t" "c"]) [] 0 0 0
    [Block.toolUse "t" "c"] rfl "t" "c" (by simp)
  exact ⟨h.1.1, h.2⟩

end SpinelArena
